import Mathlib

/-!
# Shallow embedding of the `minigrep` command-line search tool

The program (src/lib.rs, src/main.rs) is a minimal substring search tool:
given a query and a filename, it prints every line of the file containing
the query, optionally case-insensitively.

Modelling conventions:
* Rust strings are modelled as `List Char`.
* `str::lines` is modelled by `rustLines`: content is split at `'\n'`
  boundaries, a carriage return directly preceding a `'\n'` is stripped,
  and a trailing line terminator does not produce a trailing empty line.
* `str::contains` is modelled by `strContains` (substring containment).
* `str::to_lowercase` is modelled char-wise by `toLowercase` using
  `Char.toLower`.
* The process environment is modelled as an `Option (List Char)` value
  holding the `CASE_INSENSITIVE` variable's value when it is set;
  `env::var("CASE_INSENSITIVE").is_err()` becomes `Option.isNone`.
* The filesystem is modelled as a function from filenames to
  `Except ε (List Char)`; `fs::read_to_string` either yields the file's
  full contents or an error value that is propagated unchanged.
* Printing to stdout is modelled by returning the list of printed lines.
-/

namespace Minigrep

/-- Drop a single leading carriage return from a REVERSED line accumulator.
This models the `\r` that Rust's `str::lines` removes when the carriage
return directly precedes the `'\n'` line terminator. -/
def dropRevCR (l : List Char) : List Char :=
  match l with
  | c :: t => if c = '\r' then t else l
  | [] => []

/-- Accumulator-style line splitter behind `rustLines`. The first argument
holds the characters of the current (unterminated) line in reverse order. -/
def linesAux : List Char → List Char → List (List Char)
  | acc, [] => if acc.isEmpty then [] else [acc.reverse]
  | acc, c :: rest =>
    if c = '\n' then (dropRevCR acc).reverse :: linesAux [] rest
    else linesAux (c :: acc) rest

/-- Model of Rust `str::lines`: split content at line terminators (`\n` or
`\r\n`); the final line terminator is optional and does not produce a
trailing empty line; a `\r` not followed by `\n` is kept. -/
def rustLines (contents : List Char) : List (List Char) :=
  linesAux [] contents

/-- Model of Rust `str::contains`: does `haystack` contain `needle` as a
contiguous substring? -/
def strContains (haystack needle : List Char) : Bool :=
  decide (needle <:+: haystack)

/-- Char-wise model of Rust `str::to_lowercase`. -/
def toLowercase (s : List Char) : List Char :=
  s.map Char.toLower

/-- `search` from src/lib.rs: iterate over the lines of `contents`, pushing
each line that contains `query` onto the result vector. -/
def search (query contents : List Char) : List (List Char) :=
  (rustLines contents).foldl
    (fun results line =>
      if strContains line query then results ++ [line] else results)
    []

/-- `search_case_insensitive` from src/lib.rs: lowercase the query once,
then push each line whose lowercased form contains it; the pushed value is
the original line. -/
def search_case_insensitive (query contents : List Char) : List (List Char) :=
  let query := toLowercase query
  (rustLines contents).foldl
    (fun results line =>
      if strContains (toLowercase line) query then results ++ [line]
      else results)
    []

/-- Model of the Unicode `Cased` property, on the ASCII letters and the
Greek and Coptic block (U+0370 to U+03FF); `false` elsewhere. -/
def isCasedChar (c : Char) : Bool :=
  c.isAlpha || (0x370 ≤ c.toNat && c.toNat ≤ 0x3FF)

/-- Does the string start with a cased character? Rust's
`str::to_lowercase` first skips `Case_Ignorable` characters here; the
refined model assumes none are present. -/
def headCased : List Char → Bool
  | [] => false
  | c :: _ => isCasedChar c

/-- Model of Rust `char::to_lowercase` (the context-free part of
`str::to_lowercase`): the simple lowercase mapping on ASCII and on the
Greek capital letters U+0391 to U+03A9 (capital sigma going to `σ` in
this context-free position), the one-to-many mapping of `İ` (U+0130) to
`i` followed by a combining dot above, and the identity elsewhere. -/
def charToLower (c : Char) : List Char :=
  if c.toNat = 0x130 then ['i', Char.ofNat 0x307]
  else if c = 'Σ' then ['σ']
  else if 0x391 ≤ c.toNat && c.toNat ≤ 0x3A9 && c.toNat != 0x3A2 then
    [Char.ofNat (c.toNat + 0x20)]
  else [c.toLower]

/-- Refined model of Rust `str::to_lowercase` with the context-sensitive
final-sigma rule (Unicode Table 3-17, `map_uppercase_sigma` in the Rust
standard library): a capital sigma lowercases to `ς` when the preceding
character is cased and the following one is not, and to `σ` otherwise;
every other character is lowercased by `charToLower`. The first argument
records whether the character before the current position is cased.
Faithful on strings without `Case_Ignorable` characters. -/
def toLowercaseRustAux : Bool → List Char → List Char
  | _, [] => []
  | prevCased, c :: rest =>
    (if c = 'Σ' then
      if prevCased && !(headCased rest) then ['ς'] else ['σ']
    else charToLower c) ++ toLowercaseRustAux (isCasedChar c) rest

/-- Refined model of Rust `str::to_lowercase` (see `toLowercaseRustAux`);
at the start of the string no cased character precedes. -/
def toLowercaseRust (s : List Char) : List Char :=
  toLowercaseRustAux false s

/-- `search_case_insensitive` from src/lib.rs over the refined
`to_lowercase` model with the final-sigma rule. -/
def search_case_insensitive_rust (query contents : List Char) :
    List (List Char) :=
  let query := toLowercaseRust query
  (rustLines contents).foldl
    (fun results line =>
      if strContains (toLowercaseRust line) query then results ++ [line]
      else results)
    []

/-- `Config` from src/lib.rs. -/
structure Config where
  query : List Char
  filename : List Char
  case_sensitive : Bool
  deriving DecidableEq

/-- `Config::new` from src/lib.rs. `env` is the value of the
`CASE_INSENSITIVE` environment variable when set (`none` when unset), and
`args` is the raw argument list including the program name at position 0. -/
def Config.new (env : Option (List Char)) (args : List (List Char)) :
    Except (List Char) Config :=
  if h : args.length < 3 then
    Except.error ("Not enough arguments".toList)
  else
    let query := args.get ⟨1, by omega⟩
    let filename := args.get ⟨2, by omega⟩
    let case_sensitive : Bool :=
      if 3 < args.length then
        !(args.contains ("-S".toList))
      else
        env.isNone
    Except.ok ⟨query, filename, case_sensitive⟩

/-- `run` from src/lib.rs. `fs` models `fs::read_to_string` as a map from
filenames to either the file's contents or an I/O error. The result pairs
the returned `Result<(), _>` with the list of lines printed to stdout, in
print order. -/
def run {ε : Type} (fs : List Char → Except ε (List Char)) (config : Config) :
    Except ε Unit × List (List Char) :=
  match fs config.filename with
  | Except.error e => (Except.error e, [])
  | Except.ok contents =>
    let results :=
      if config.case_sensitive then search config.query contents
      else search_case_insensitive config.query contents
    (Except.ok (), results)

/-! ## Helper lemmas -/

/-- The push-loop accumulator used by both search variants is `filter`. -/
theorem foldl_push_eq_filter {α : Type} (p : α → Bool) (l init : List α) :
    l.foldl (fun results x => if p x then results ++ [x] else results) init =
      init ++ l.filter p := by
  induction l generalizing init with
  | nil => simp
  | cons x l ih =>
    by_cases h : p x = true
    · simp [List.foldl_cons, h, ih, List.filter_cons]
    · simp [List.foldl_cons, h, ih, List.filter_cons]

theorem search_eq_filter (q c : List Char) :
    search q c = (rustLines c).filter (fun line => strContains line q) := by
  simp only [search, foldl_push_eq_filter, List.nil_append]

theorem search_ci_eq_filter (q c : List Char) :
    search_case_insensitive q c =
      (rustLines c).filter
        (fun line => strContains (toLowercase line) (toLowercase q)) := by
  simp only [search_case_insensitive, foldl_push_eq_filter, List.nil_append]

theorem strContains_iff (h n : List Char) : strContains h n = true ↔ n <:+: h :=
  decide_eq_true_iff

theorem mem_search (q c line : List Char) :
    line ∈ search q c ↔ line ∈ rustLines c ∧ q <:+: line := by
  rw [search_eq_filter, List.mem_filter, strContains_iff]

theorem mem_search_ci (q c line : List Char) :
    line ∈ search_case_insensitive q c ↔
      line ∈ rustLines c ∧ toLowercase q <:+: toLowercase line := by
  rw [search_ci_eq_filter, List.mem_filter, strContains_iff]

theorem search_ci_rust_eq_filter (q c : List Char) :
    search_case_insensitive_rust q c =
      (rustLines c).filter
        (fun line => strContains (toLowercaseRust line) (toLowercaseRust q)) := by
  simp only [search_case_insensitive_rust, foldl_push_eq_filter,
    List.nil_append]

theorem mem_search_ci_rust (q c line : List Char) :
    line ∈ search_case_insensitive_rust q c ↔
      line ∈ rustLines c ∧
        toLowercaseRust q <:+: toLowercaseRust line := by
  rw [search_ci_rust_eq_filter, List.mem_filter, strContains_iff]

/-- On sigma-free strings the refined lowercasing is character-wise and
independent of the preceding-character context. -/
theorem toLowercaseRustAux_sigma_free (s : List Char) (hs : 'Σ' ∉ s)
    (b : Bool) : toLowercaseRustAux b s = s.flatMap charToLower := by
  induction s generalizing b with
  | nil => rfl
  | cons c rest ih =>
    have hc : ¬ c = 'Σ' := by
      intro h
      exact hs (by simp [h])
    have hrest : 'Σ' ∉ rest := fun h => hs (List.mem_cons_of_mem c h)
    simp only [toLowercaseRustAux, if_neg hc, ih hrest, List.flatMap_cons]

/-- `dropRevCR` removes at most a one-element front. -/
theorem dropRevCR_eq (l : List Char) : ∃ d, l = d ++ dropRevCR l := by
  match l with
  | [] => exact ⟨[], rfl⟩
  | c :: t =>
    by_cases h : c = '\r'
    · exact ⟨[c], by simp [dropRevCR, h]⟩
    · exact ⟨[], by simp [dropRevCR, h]⟩

/-- Every line produced by `linesAux acc rest` is a contiguous substring of
`acc.reverse ++ rest`. -/
theorem mem_linesAux_sub (rest : List Char) :
    ∀ acc, ∀ l ∈ linesAux acc rest, l <:+: (acc.reverse ++ rest) := by
  induction rest with
  | nil =>
    intro acc l hl
    simp only [linesAux] at hl
    by_cases he : acc.isEmpty
    · simp [he] at hl
    · rw [if_neg he] at hl
      rcases List.mem_singleton.mp hl with rfl
      exact ⟨[], [], by simp⟩
  | cons c rest ih =>
    intro acc l hl
    simp only [linesAux] at hl
    by_cases hc : c = '\n'
    · rw [if_pos hc] at hl
      rcases List.mem_cons.mp hl with rfl | h2
      · obtain ⟨d, hd⟩ := dropRevCR_eq acc
        refine ⟨[], d.reverse ++ c :: rest, ?_⟩
        rw [List.nil_append]
        calc (dropRevCR acc).reverse ++ (d.reverse ++ c :: rest)
            = ((dropRevCR acc).reverse ++ d.reverse) ++ c :: rest := by
              rw [List.append_assoc]
          _ = (d ++ dropRevCR acc).reverse ++ c :: rest := by
              rw [List.reverse_append]
          _ = acc.reverse ++ c :: rest := by rw [← hd]
      · obtain ⟨s, t, hst⟩ := ih [] l h2
        refine ⟨acc.reverse ++ c :: s, t, ?_⟩
        simp only [List.reverse_nil, List.nil_append] at hst
        simp [List.append_assoc, hst]
    · rw [if_neg hc] at hl
      have h := ih (c :: acc) l hl
      simpa [List.append_assoc] using h

theorem mem_rustLines_sub (c : List Char) : ∀ l ∈ rustLines c, l <:+: c := by
  intro l hl
  simpa using mem_linesAux_sub c [] l hl

/-- Substring containment is preserved by any character-wise (possibly
one-to-many) map. -/
theorem isSub_flatMap (f : Char → List Char) {l₁ l₂ : List Char}
    (h : l₁ <:+: l₂) : l₁.flatMap f <:+: l₂.flatMap f := by
  obtain ⟨s, t, rfl⟩ := h
  exact ⟨s.flatMap f, t.flatMap f, by simp⟩

/-! ## Claim theorems -/

/-- C1: the case-sensitive search returns exactly those lines of the
content (as split by line terminators, with no trailing empty line for a
trailing terminator) that contain the query as an exact substring, in the
same relative order as in the content, with no deduplication: the result
equals the filtering of the content's lines by substring containment, it
is a sublist of the lines (order preserved, multiplicity preserved), and
membership is characterized by containment. -/
theorem search_returns_exactly_matching_lines (q c : List Char) :
    search q c = (rustLines c).filter (fun line => decide (q <:+: line)) ∧
    List.Sublist (search q c) (rustLines c) ∧
    ∀ line, line ∈ search q c ↔ line ∈ rustLines c ∧ q <:+: line := by
  refine ⟨search_eq_filter q c, ?_, mem_search q c⟩
  rw [search_eq_filter]
  exact List.filter_sublist _

/-- C2: the case-insensitive search returns exactly those lines of the
content whose lowercased form contains the lowercased query, in original
order, and each returned value is the original (non-lowercased) line of
the content: the result is the filtering of the content's original lines,
a sublist of them, with membership characterized by lowercased
containment. -/
theorem search_ci_returns_exactly_matching_lines (q c : List Char) :
    search_case_insensitive q c =
      (rustLines c).filter
        (fun line => decide (toLowercase q <:+: toLowercase line)) ∧
    List.Sublist (search_case_insensitive q c) (rustLines c) ∧
    ∀ line, line ∈ search_case_insensitive q c ↔
      line ∈ rustLines c ∧ toLowercase q <:+: toLowercase line := by
  refine ⟨search_ci_eq_filter q c, ?_, mem_search_ci q c⟩
  rw [search_ci_eq_filter]
  exact List.filter_sublist _

/-- C3: with at least 3 arguments `Config.new` succeeds, setting the query
from position 1 and the filename from position 2; with more than 3
arguments the configuration is case-insensitive exactly when the literal
flag `-S` occurs among the arguments, and with exactly 3 arguments it is
case-sensitive exactly when the `CASE_INSENSITIVE` environment variable is
unset, regardless of that variable's value. -/
theorem config_new_resolution (env : Option (List Char))
    (args : List (List Char)) (h : 3 ≤ args.length) :
    ∃ cfg, Config.new env args = Except.ok cfg ∧
      cfg.query = args.getD 1 [] ∧
      cfg.filename = args.getD 2 [] ∧
      (3 < args.length →
        (cfg.case_sensitive = false ↔ "-S".toList ∈ args)) ∧
      (args.length = 3 → (cfg.case_sensitive = true ↔ env = none)) := by
  have hn : ¬ args.length < 3 := by omega
  have h1 : 1 < args.length := by omega
  have h2 : 2 < args.length := by omega
  refine ⟨⟨args.get ⟨1, h1⟩, args.get ⟨2, h2⟩,
    if 3 < args.length then !(args.contains ("-S".toList)) else env.isNone⟩,
    ?_, ?_, ?_, ?_, ?_⟩
  · unfold Config.new
    rw [dif_neg hn]
  · rw [List.getD_eq_getElem args [] h1]
    rfl
  · rw [List.getD_eq_getElem args [] h2]
    rfl
  · intro hgt
    show (if 3 < args.length then !(args.contains ("-S".toList))
      else env.isNone) = false ↔ "-S".toList ∈ args
    rw [if_pos hgt]
    simp [List.contains, List.elem_eq_mem]
  · intro heq
    have hgt : ¬ 3 < args.length := by omega
    show (if 3 < args.length then !(args.contains ("-S".toList))
      else env.isNone) = true ↔ env = none
    rw [if_neg hgt]
    exact Option.isNone_iff_eq_none

/-- C3 witness: a concrete four-entry argument list. -/
theorem config_new_resolution_witness :
    ∃ cfg,
      Config.new none
          ["prog".toList, "q".toList, "f".toList, "-S".toList] =
        Except.ok cfg ∧
      cfg.query = ["prog".toList, "q".toList, "f".toList, "-S".toList].getD 1 [] ∧
      cfg.filename = ["prog".toList, "q".toList, "f".toList, "-S".toList].getD 2 [] ∧
      (3 < ["prog".toList, "q".toList, "f".toList, "-S".toList].length →
        (cfg.case_sensitive = false ↔
          "-S".toList ∈ ["prog".toList, "q".toList, "f".toList, "-S".toList])) ∧
      (["prog".toList, "q".toList, "f".toList, "-S".toList].length = 3 →
        (cfg.case_sensitive = true ↔ (none : Option (List Char)) = none)) :=
  config_new_resolution none
    ["prog".toList, "q".toList, "f".toList, "-S".toList] (by decide)

/-- C4 counterexample: for query `ΑΣ` and content `ΑΣΒ` the case-sensitive
search returns the single line, but under the final-sigma rule of Rust's
`str::to_lowercase` the case-insensitive search returns nothing: the
query lowercases to `ας` (word-final sigma) while the line lowercases to
`ασβ` (sigma followed by a cased letter), and the former is not a
substring of the latter. -/
theorem search_subset_search_ci_counterexample :
    search ("ΑΣ".toList) ("ΑΣΒ".toList) = ["ΑΣΒ".toList] ∧
    search_case_insensitive_rust ("ΑΣ".toList) ("ΑΣΒ".toList) = [] := by
  decide

/-- C4 amended: for every content and query in which the Greek capital
letter sigma does not occur, every line returned by the case-sensitive
search is also returned by the case-insensitive search (over the refined
`to_lowercase` model with the final-sigma rule). -/
theorem search_subset_search_ci_sigma_free (q c : List Char)
    (hq : 'Σ' ∉ q) (hc : 'Σ' ∉ c) :
    ∀ line ∈ search q c, line ∈ search_case_insensitive_rust q c := by
  intro line hline
  obtain ⟨hmem, hsub⟩ := (mem_search q c line).mp hline
  have hlinefree : 'Σ' ∉ line :=
    fun hmemline => hc ((mem_rustLines_sub c line hmem).subset hmemline)
  refine (mem_search_ci_rust q c line).mpr ⟨hmem, ?_⟩
  simp only [toLowercaseRust, toLowercaseRustAux_sigma_free q hq,
    toLowercaseRustAux_sigma_free line hlinefree]
  exact isSub_flatMap charToLower hsub

/-- C4 amended witness: a sigma-free query and content on which the
case-sensitive match is kept by the case-insensitive search. -/
theorem search_subset_search_ci_sigma_free_witness :
    "Rust:".toList ∈
      search_case_insensitive_rust ("Rust".toList) ("Rust:\nok".toList) :=
  search_subset_search_ci_sigma_free ("Rust".toList) ("Rust:\nok".toList)
    (by decide) (by decide) ("Rust:".toList) (by decide)

/-- C5: `Config.new` fails with the fixed message `Not enough arguments`
exactly when the argument list has fewer than 3 entries; with 3 or more
entries it never returns an error. -/
theorem config_new_insufficient_args (env : Option (List Char))
    (args : List (List Char)) :
    (args.length < 3 →
      Config.new env args = Except.error ("Not enough arguments".toList)) ∧
    (3 ≤ args.length →
      ∀ msg, Config.new env args ≠ Except.error msg) := by
  constructor
  · intro h
    unfold Config.new
    rw [dif_pos h]
  · intro h msg
    unfold Config.new
    rw [dif_neg (show ¬ args.length < 3 by omega)]
    exact fun hcontra => Except.noConfusion hcontra

/-- C5 witness: one too-short list fails, one three-entry list does not. -/
theorem config_new_insufficient_args_witness :
    Config.new none ["prog".toList] =
      Except.error ("Not enough arguments".toList) ∧
    Config.new none ["prog".toList, "q".toList, "f".toList] ≠
      Except.error ("Not enough arguments".toList) :=
  ⟨(config_new_insufficient_args none ["prog".toList]).1 (by decide),
   (config_new_insufficient_args none
      ["prog".toList, "q".toList, "f".toList]).2 (by decide)
     "Not enough arguments".toList⟩

/-- C6: `run` fails, propagating the underlying I/O error and printing
zero lines, exactly when reading the named file fails; on success it
prints exactly the lines returned by the configured search variant, in
order. -/
theorem run_propagates_io_and_prints (ε : Type)
    (fs : List Char → Except ε (List Char)) (config : Config) :
    (∀ e, fs config.filename = Except.error e →
      run fs config = (Except.error e, [])) ∧
    (∀ contents, fs config.filename = Except.ok contents →
      run fs config =
        (Except.ok (),
          if config.case_sensitive then search config.query contents
          else search_case_insensitive config.query contents)) := by
  constructor
  · intro e he
    simp only [run, he]
  · intro contents hc
    simp only [run, hc]

/-- C6 witness: a failing read prints nothing; a successful read prints
the matching lines. -/
theorem run_propagates_io_and_prints_witness :
    run (fun _ => (Except.error 5 : Except Nat (List Char)))
        ⟨"q".toList, "f".toList, true⟩ = (Except.error 5, []) ∧
    run (fun _ => (Except.ok ("ab\nqx".toList) : Except Nat (List Char)))
        ⟨"q".toList, "f".toList, true⟩ =
      (Except.ok (), ["qx".toList]) := by
  constructor
  · exact (run_propagates_io_and_prints Nat
      (fun _ => Except.error 5) ⟨"q".toList, "f".toList, true⟩).1 5 rfl
  · have h := (run_propagates_io_and_prints Nat
      (fun _ => Except.ok ("ab\nqx".toList))
      ⟨"q".toList, "f".toList, true⟩).2 ("ab\nqx".toList) rfl
    rw [h]
    norm_num
    decide

/-- C7: the empty query matches every line of the content, for both the
case-sensitive and the case-insensitive search. -/
theorem empty_query_returns_all_lines (c : List Char) :
    search [] c = rustLines c ∧
    search_case_insensitive [] c = rustLines c := by
  constructor
  · rw [search_eq_filter]
    refine List.filter_eq_self.mpr fun line _ => ?_
    exact (strContains_iff line []).mpr ⟨[], line, rfl⟩
  · rw [search_ci_eq_filter]
    refine List.filter_eq_self.mpr fun line _ => ?_
    exact (strContains_iff (toLowercase line) (toLowercase [])).mpr
      ⟨[], toLowercase line, rfl⟩

/-- C8: every line returned by either search variant is a contiguous
substring of the original content, never a modified copy. -/
theorem returned_lines_contiguous (q c : List Char) :
    (∀ line ∈ search q c, line <:+: c) ∧
    (∀ line ∈ search_case_insensitive q c, line <:+: c) := by
  constructor
  · intro line hline
    exact mem_rustLines_sub c line ((mem_search q c line).mp hline).1
  · intro line hline
    exact mem_rustLines_sub c line ((mem_search_ci q c line).mp hline).1

/-- C8 witness: a concrete returned line is a substring of the content. -/
theorem returned_lines_contiguous_witness :
    "ab".toList <:+: "ab\ncd".toList :=
  (returned_lines_contiguous ("a".toList) ("ab\ncd".toList)).1 ("ab".toList)
    (by decide)

/-- C9: with more than 3 arguments, if the query (position 1) or the
filename (position 2) is itself the literal string `-S`, the resulting
configuration is case-insensitive, because the flag check is membership
anywhere in the argument list. -/
theorem flag_as_positional_forces_insensitive (env : Option (List Char))
    (args : List (List Char)) (h : 3 < args.length)
    (hpos : args.getD 1 [] = "-S".toList ∨ args.getD 2 [] = "-S".toList) :
    ∃ cfg, Config.new env args = Except.ok cfg ∧
      cfg.case_sensitive = false := by
  have hmem : "-S".toList ∈ args := by
    rcases hpos with hp | hp
    · rw [← hp, List.getD_eq_getElem args [] (show 1 < args.length by omega)]
      exact List.getElem_mem _
    · rw [← hp, List.getD_eq_getElem args [] (show 2 < args.length by omega)]
      exact List.getElem_mem _
  refine ⟨⟨args.get ⟨1, by omega⟩, args.get ⟨2, by omega⟩,
    if 3 < args.length then !(args.contains ("-S".toList)) else env.isNone⟩,
    ?_, ?_⟩
  · unfold Config.new
    rw [dif_neg (show ¬ args.length < 3 by omega)]
  · show (if 3 < args.length then !(args.contains ("-S".toList))
      else env.isNone) = false
    rw [if_pos h]
    simp only [List.contains, List.elem_eq_mem, Bool.not_eq_false',
      decide_eq_true_iff]
    exact hmem

/-- C9 witness: query `-S` with four arguments yields case-insensitive. -/
theorem flag_as_positional_forces_insensitive_witness :
    ∃ cfg,
      Config.new none
          ["prog".toList, "-S".toList, "f".toList, "x".toList] =
        Except.ok cfg ∧
      cfg.case_sensitive = false :=
  flag_as_positional_forces_insensitive none
    ["prog".toList, "-S".toList, "f".toList, "x".toList]
    (by decide) (Or.inl (by decide))

/-- C10: with more than 3 arguments, the configuration produced by
`Config.new` is the same whatever the `CASE_INSENSITIVE` environment
variable holds, set or unset. -/
theorem config_independent_of_env (args : List (List Char))
    (h : 3 < args.length) (env₁ env₂ : Option (List Char)) :
    Config.new env₁ args = Config.new env₂ args := by
  unfold Config.new
  simp only [dif_neg (show ¬ args.length < 3 by omega), if_pos h]

/-- C10 witness: set versus unset environment, same four arguments. -/
theorem config_independent_of_env_witness :
    Config.new (some ("1".toList))
        ["prog".toList, "q".toList, "f".toList, "x".toList] =
      Config.new none
        ["prog".toList, "q".toList, "f".toList, "x".toList] :=
  config_independent_of_env
    ["prog".toList, "q".toList, "f".toList, "x".toList]
    (by decide) (some ("1".toList)) none

/-! ## Sanity checks

The line splitter matches the documented behaviour of Rust's `str::lines`,
and the two search variants reproduce the repository's own unit tests
(`tests::case_sensitive` and `tests::case_insensitive` in src/lib.rs). -/

example : rustLines ("a\nb".toList) = ["a".toList, "b".toList] := by decide

example : rustLines ("a\n".toList) = ["a".toList] := by decide

example : rustLines ("".toList) = [] := by decide

example : rustLines ("\n".toList) = [[]] := by decide

example : rustLines ("foo\r\nbar\n\nbaz\r".toList) =
    ["foo".toList, "bar".toList, [], "baz\r".toList] := by decide

example :
    search ("duct".toList)
      ("Rust:\nsafe, fast, productive.\nPick three.\nDuct tape.".toList) =
    ["safe, fast, productive.".toList] := by decide

example :
    search_case_insensitive ("rUsT".toList)
      ("Rust:\nsafe, fast, productive.\nPick three.\nTrust me.".toList) =
    ["Rust:".toList, "Trust me.".toList] := by decide

end Minigrep
